import Mathlib

/-!
Verification of `src/mgen2d3js/mgen2d3js.py`.

The pipeline of `convert_mgen_to_json` is embedded shallowly: lines are
lists of characters, Python's `str.split(sep)` for a one-character
separator is `splitChar`, the `ipaddress.ip_address` check of the Python
standard library is modelled by `ip_address_ok`, and the mutable
`json_dicts` list of the source is threaded explicitly through `step`
(lines 196-214 of the source) and `process_mgen_line` (lines 176-214).
A raised exception that the source does not catch is modelled by `none`.
-/

/-- One element of the `json_dicts` list built by `convert_mgen_to_json`:
a Python dict `{"name": ..., "size": ..., "imports": ...}`. -/
structure JsonDict where
  name : String
  size : Nat
  imports : List String
deriving Repr, DecidableEq

/-- Python `s.split(sep)` for a single-character separator `sep`, on the
character list of `s`.  `splitChar c []` is `[[]]`, matching
`"".split(sep) == ['']`, and adjacent separators yield empty fields. -/
def splitChar (sep : Char) : List Char → List (List Char)
  | [] => [[]]
  | c :: rest =>
    if c = sep then [] :: splitChar sep rest
    else
      match splitChar sep rest with
      | [] => [[c]]
      | t :: ts => (c :: t) :: ts

/-- The decimal value of a digit string, as Python `int` reads it. -/
def decimalValue (s : List Char) : Nat :=
  s.foldl (fun a c => a * 10 + (c.toNat - Char.toNat '0')) 0

/-- Models `ipaddress._parse_octet`: one dotted-quad component must be 1-3
ASCII digits, at most 255, with no leading zero. -/
def isOctet (s : List Char) : Bool :=
  s.all Char.isDigit && decide (0 < s.length) && decide (s.length ≤ 3) &&
    (decide (s.length = 1) || decide (s.headD 'x' ≠ '0')) &&
    decide (decimalValue s ≤ 255)

/-- Models the IPv4 acceptance of Python `ipaddress.ip_address`: exactly
four dot-separated octets. -/
def pyIsValidIPv4 (addr : List Char) : Bool :=
  let parts := splitChar '.' addr
  decide (parts.length = 4) && parts.all isOctet

/-- One IPv6 hextet: 1-4 hexadecimal digits. -/
def isHextet (s : List Char) : Bool :=
  decide (0 < s.length) && decide (s.length ≤ 4) &&
    s.all fun c => c.isDigit || (decide ('a' ≤ c) && decide (c ≤ 'f')) ||
      (decide ('A' ≤ c) && decide (c ≤ 'F'))

/-- Models the IPv6 acceptance of Python `ipaddress.ip_address`
(`_ip_int_from_string` of the `ipaddress` module): colon-separated
hextets, at most one `::` compression standing for at least one zero
group.  The embedded-IPv4 suffix form and `%`-scoped addresses are not
modelled; no input of this development uses them. -/
def pyIsValidIPv6 (addr : List Char) : Bool :=
  let parts := splitChar ':' addr
  let n := parts.length
  if n < 3 ∨ 9 < n then false
  else
    let inner := (List.range n).filter fun i =>
      decide (0 < i) && decide (i < n - 1) && decide (parts.getD i [' '] = [])
    match inner with
    | [] =>
      decide (n = 8) && parts.all isHextet
    | [skip] =>
      let headEmpty := parts.getD 0 [' '] = []
      let lastEmpty := parts.getD (n - 1) [' '] = []
      let partsHi := if headEmpty then skip - 1 else skip
      let partsLo := if lastEmpty then n - skip - 2 else n - skip - 1
      (if headEmpty then decide (skip = 1) else true) &&
      (if lastEmpty then decide (skip = n - 2) else true) &&
      decide (partsHi + partsLo ≤ 7) &&
      (List.range n).all fun i =>
        if parts.getD i [' '] = [] then true else isHextet (parts.getD i [' '])
    | _ => false

/-- Models Python `ipaddress.ip_address(s)` succeeding: the string parses
as an IPv4 or an IPv6 address. -/
def ip_address_ok (addr : List Char) : Bool :=
  pyIsValidIPv4 addr || pyIsValidIPv6 addr

/-- `node_address.split("/")[0]` (source lines 123 and 140): the address
with an optional `/port` suffix stripped. -/
def stripPort (node_address : List Char) : List Char :=
  (splitChar '/' node_address).headD []

/-- Source lines 114-129, `validate_node_address`: strip the optional
`/port`, then check `ipaddress.ip_address` succeeds.  The source returns
`False` on the caught `ValueError` and `None` (truthy to the caller's
`is False` test) on success; the Bool result models that. -/
def validate_node_address (node_address : List Char) : Bool :=
  ip_address_ok (stripPort node_address)

/-- Source lines 86-111, `validate_recv_mgen_line`: token 5 must start
with `src>` and token 6 with `dst>`.  An `IndexError` from a short token
list is caught inside the source function and also yields `False`. -/
def validate_recv_mgen_line (mgen_line : List (List Char)) : Bool :=
  match mgen_line.get? 5 with
  | none => false
  | some t5 =>
    if (t5.take 4) ≠ ("src>").data then false
    else
      match mgen_line.get? 6 with
      | none => false
      | some t6 => if (t6.take 4) ≠ ("dst>").data then false else true

/-- Source lines 132-143, `convert_node_address`: strip the optional
`/port`, split on `.`, emit `mgen.` plus the first four parts joined by
`-`.  A list with fewer than four parts makes the source raise an
uncaught `IndexError`, modelled by `none`. -/
def convert_node_address (node_address : List Char) : Option String :=
  let parts := splitChar '.' (stripPort node_address)
  match parts.get? 0, parts.get? 1, parts.get? 2, parts.get? 3 with
  | some a, some b, some c, some d =>
    some (List.asString (("mgen.").data ++ a ++ '-' :: b ++ '-' :: c ++ '-' :: d))
  | _, _, _, _ => none

/-- The body of the loop at source lines 206-210: a dict whose name is
`srcnode` and whose imports do not yet hold `dstnode` gets `dstnode`
appended and its size incremented; every other dict is unchanged. -/
def updImports (srcnode dstnode : String) (d : JsonDict) : JsonDict :=
  if d.name = srcnode then
    if dstnode ∉ d.imports then ⟨d.name, d.size + 1, d.imports ++ [dstnode]⟩
    else d
  else d

/-- Source lines 196-210: ensure a dict for `srcnode` exists and record
`dstnode` among its imports if new. -/
def stepSrc (json_dicts : List JsonDict) (srcnode dstnode : String) : List JsonDict :=
  if json_dicts.isEmpty then
    json_dicts ++ [⟨srcnode, 1, [dstnode]⟩]
  else if srcnode ∉ json_dicts.map JsonDict.name then
    json_dicts ++ [⟨srcnode, 1, [dstnode]⟩]
  else
    json_dicts.map (updImports srcnode dstnode)

/-- Source lines 211-214: append an empty dict for a `dstnode` that has
no dict yet. -/
def stepDst (json_dicts : List JsonDict) (dstnode : String) : List JsonDict :=
  if dstnode ∉ json_dicts.map JsonDict.name then json_dicts ++ [⟨dstnode, 0, []⟩]
  else json_dicts

/-- Source lines 196-214: the update of the mutable `json_dicts` list by
one validated line with normalized source `srcnode` and destination
`dstnode`. -/
def step (json_dicts : List JsonDict) (srcnode dstnode : String) : List JsonDict :=
  stepDst (stepSrc json_dicts srcnode dstnode) dstnode

/-- Source lines 176-214: processing of one line of `f.readlines()`
against the current `json_dicts` state.  `none` models an uncaught
exception (`IndexError` on `mgen_line[1]` for a line with fewer than two
space-split tokens, or inside `convert_node_address`); `some` is the
state after the line, unchanged for skipped lines.  The `count`
variable of the source is used only in diagnostics and is not
modelled. -/
def process_mgen_line (json_dicts : List JsonDict) (mgen_line : List Char) :
    Option (List JsonDict) :=
  if mgen_line = ['\n'] then some json_dicts
  else
    let tokens := splitChar ' ' mgen_line
    match tokens.get? 1 with
    | none => none
    | some t1 =>
      if t1 = ("RECV").data then
        if validate_recv_mgen_line tokens = false then some json_dicts
        else
          match tokens.get? 5, tokens.get? 6 with
          | some t5, some t6 =>
            if validate_node_address (t5.drop 4) = false then some json_dicts
            else if validate_node_address (t6.drop 4) = false then some json_dicts
            else
              match convert_node_address (t5.drop 4), convert_node_address (t6.drop 4) with
              | some srcnode, some dstnode => some (step json_dicts srcnode dstnode)
              | _, _ => none
          | _, _ => none
      else some json_dicts

/-- Python `f.readlines()` on the raw character content of a file: split
into lines, each keeping its terminating newline; a last line without a
newline is kept as is; empty content gives no lines. -/
def pyReadlines : List Char → List (List Char)
  | [] => []
  | c :: rest =>
    if c = '\n' then ['\n'] :: pyReadlines rest
    else
      match pyReadlines rest with
      | [] => [[c]]
      | l :: ls => (c :: l) :: ls

/-- The whole line loop of source lines 175-214 starting from the empty
`json_dicts`: `none` when an uncaught exception aborts it. -/
def run_lines (lines : List (List Char)) : Option (List JsonDict) :=
  lines.foldlM process_mgen_line []

/-- Hexadecimal digit, lowercase, as Python `json` emits it. -/
def hexDigit (n : Nat) : Char :=
  if n < 10 then Char.ofNat (Char.toNat '0' + n)
  else Char.ofNat (Char.toNat 'a' + (n - 10))

/-- Escaping of one character by Python `json.dumps` with its default
`ensure_ascii=True`: characters outside the printable ASCII range
`' '..'~'` plus `"` and backslash are escaped. -/
def jsonEscapeChar (c : Char) : List Char :=
  if c = '"' then ['\\', '"']
  else if c = '\\' then ['\\', '\\']
  else if c = '\n' then ['\\', 'n']
  else if c = '\t' then ['\\', 't']
  else if c = '\r' then ['\\', 'r']
  else if c = '\x08' then ['\\', 'b']
  else if c = '\x0c' then ['\\', 'f']
  else if decide (c.toNat < 0x20) || decide (0x7e < c.toNat) then
    if c.toNat < 0x10000 then
      ['\\', 'u', hexDigit (c.toNat / 4096 % 16), hexDigit (c.toNat / 256 % 16),
        hexDigit (c.toNat / 16 % 16), hexDigit (c.toNat % 16)]
    else
      let v := c.toNat - 0x10000
      let hi := 0xd800 + v / 1024
      let lo := 0xdc00 + v % 1024
      ['\\', 'u', hexDigit (hi / 4096 % 16), hexDigit (hi / 256 % 16),
        hexDigit (hi / 16 % 16), hexDigit (hi % 16),
        '\\', 'u', hexDigit (lo / 4096 % 16), hexDigit (lo / 256 % 16),
        hexDigit (lo / 16 % 16), hexDigit (lo % 16)]
  else [c]

/-- JSON escaping of a character list. -/
def escChars : List Char → List Char
  | [] => []
  | c :: cs => jsonEscapeChar c ++ escChars cs

/-- A JSON string literal for `s`, as Python `json.dumps` renders it. -/
def jsonQuote (s : String) : String :=
  String.mk ('"' :: (escChars s.data ++ ['"']))

/-- The item separator of Python `json.dumps` with default separators. -/
def commaSpace : String := ", "

/-- Join strings with a separator. -/
def joinSep (sep : String) : List String → String
  | [] => ""
  | [x] => x
  | x :: xs => x ++ sep ++ joinSep sep xs

/-- Python `json.dumps` of one `json_dicts` element, default separators,
keys in insertion order `name`, `size`, `imports`. -/
def jsonOfDict (d : JsonDict) : String :=
  ("\x7b\"name\": ") ++ jsonQuote d.name ++ (", \"size\": ") ++ Nat.repr d.size ++
    (", \"imports\": [") ++ joinSep commaSpace (d.imports.map jsonQuote) ++ ("]\x7d")

/-- Python `json.dumps(json_dicts)`, the single string written to the
output file at source line 215. -/
def jsonDumps (ds : List JsonDict) : String :=
  ("[") ++ joinSep commaSpace (ds.map jsonOfDict) ++ ("]")

/-- Modes of Python `open`. -/
inductive OpenMode where
  | read
  | write
  | append
deriving Repr, DecidableEq

/-- The mode in which source line 173 opens the output file: `'a'`. -/
def output_open_mode : OpenMode := OpenMode.append

/-- Content of a just-opened file of previous content `old`: `'w'`
truncates, `'a'` and `'r'` keep the content. -/
def applyOpenMode (m : OpenMode) (old : String) : String :=
  match m with
  | OpenMode.write => ""
  | OpenMode.append => old
  | OpenMode.read => old

/-- Outcome of one run of `convert_mgen_to_json`: the final content of
the output file, whether the run finished without an uncaught exception,
and whether the empty-input `ValueError` of source line 168 was raised
(it is caught at lines 169-171 and only logged). -/
structure ConvertResult where
  output : String
  completed : Bool
  emptyInputLogged : Bool
deriving Repr, DecidableEq

/-- Source lines 146-224, `convert_mgen_to_json`, for a readable input of
raw content `input` and an output file of previous content
`existingOutput`: the output file is opened with `output_open_mode`
(line 173), every line of `f.readlines()` is processed in order, and on
normal completion the single `g.write(json.dumps(json_dicts))` of line
215 appends the serialized array.  An uncaught exception inside the loop
leaves the opened output file unwritten. -/
def convert_mgen_to_json (input : List Char) (existingOutput : String) : ConvertResult :=
  let g := applyOpenMode output_open_mode existingOutput
  let emptyLogged := input.isEmpty
  match run_lines (pyReadlines input) with
  | some ds => ⟨g ++ jsonDumps ds, true, emptyLogged⟩
  | none => ⟨g, false, emptyLogged⟩

/-- The six notional `RECV` lines of the module docstring (source lines
19-24), as raw file content. -/
def exampleInput : String :=
  "22:55:07.470450 RECV proto>UDP flow>1 seq>0 src>127.0.0.1/5001 dst>127.0.0.2/5000 sent>22:55:07.470351 size>1024\n" ++
  "22:55:08.470981 RECV proto>UDP flow>1 seq>1 src>127.0.0.1/5001 dst>127.0.0.2/5000 sent>22:55:08.470860 size>1024\n" ++
  "22:55:10.471264 RECV proto>UDP flow>2 seq>0 src>127.0.0.1/5001 dst>127.0.0.3/5000 sent>22:55:10.471120 size>1024\n" ++
  "22:55:11.471280 RECV proto>UDP flow>3 seq>0 src>127.0.0.2/5001 dst>127.0.0.3/5000 sent>22:55:11.471140 size>1024\n" ++
  "22:55:13.471262 RECV proto>UDP flow>4 seq>0 src>127.0.0.2/5001 dst>127.0.0.1/5000 sent>22:55:13.471120 size>1024\n" ++
  "22:55:14.471251 RECV proto>UDP flow>5 seq>0 src>127.0.0.1/5001 dst>127.0.0.4/5000 sent>22:55:14.471128 size>1024\n"

/-- The six example lines as `f.readlines()` yields them. -/
def sixLines : List (List Char) := pyReadlines exampleInput.data

/-- The first notional `RECV` line alone, as one raw line. -/
def recvLine1 : List Char :=
  ("22:55:07.470450 RECV proto>UDP flow>1 seq>0 src>127.0.0.1/5001 dst>127.0.0.2/5000 sent>22:55:07.470351 size>1024\n").data

/-- A `RECV` line whose source address fails IP validation. -/
def recvLine999 : List Char :=
  ("22:55:07.470450 RECV proto>UDP flow>1 seq>0 src>999.999.999.999/5001 dst>127.0.0.2/5000 sent>22:55:07.470351 size>1024\n").data

/-- The first notional `RECV` line with every separating space replaced
by a tab. -/
def tabLine : List Char :=
  ("22:55:07.470450\tRECV\tproto>UDP\tflow>1\tseq>0\tsrc>127.0.0.1/5001\tdst>127.0.0.2/5000\tsent>22:55:07.470351\tsize>1024\n").data

/-- Append an element to an accumulator unless already present: the
deduplicating insertion the source performs with its `not in` tests. -/
def insertNew (acc : List String) (x : String) : List String :=
  if x ∈ acc then acc else acc ++ [x]

/-- First-occurrence deduplication of a list, in order. -/
def dedupFirst (l : List String) : List String := l.foldl insertNew []

/-- All addresses of an edge list, source before destination, in file
order. -/
def flatPairs : List (String × String) → List String
  | [] => []
  | e :: es => e.1 :: e.2 :: flatPairs es

/-- The destinations recorded for source `A` by an edge list, in order,
with multiplicity. -/
def dstsOf (A : String) (edges : List (String × String)) : List String :=
  (edges.filter fun e => decide (e.1 = A)).map Prod.snd

/-- `step` on a pair. -/
def stepP (ds : List JsonDict) (e : String × String) : List JsonDict := step ds e.1 e.2

/-- The `json_dicts` state after accumulating an edge list from the
empty state. -/
def processEdges (edges : List (String × String)) : List JsonDict :=
  edges.foldl stepP []

/-- The full characterization of the accumulated state: dict names are
the distinct addresses in first-appearance order, each dict's imports
are the distinct destinations recorded for its name in first-recording
order, and each size is the length of the imports. -/
def GraphSpec (edges : List (String × String)) (ds : List JsonDict) : Prop :=
  ds.map JsonDict.name = dedupFirst (flatPairs edges) ∧
  ∀ d ∈ ds, d.imports = dedupFirst (dstsOf d.name edges) ∧ d.size = d.imports.length

/-- The normalized `(source, destination)` pair a line contributes to the
accumulated state, `none` when the line is blank, ignored, rejected by
validation, or aborts: the same cascade of checks as
`process_mgen_line`. -/
def lineEdge (mgen_line : List Char) : Option (String × String) :=
  if mgen_line = ['\n'] then none
  else
    let tokens := splitChar ' ' mgen_line
    match tokens.get? 1 with
    | none => none
    | some t1 =>
      if t1 = ("RECV").data then
        if validate_recv_mgen_line tokens = false then none
        else
          match tokens.get? 5, tokens.get? 6 with
          | some t5, some t6 =>
            if validate_node_address (t5.drop 4) = false then none
            else if validate_node_address (t6.drop 4) = false then none
            else
              match convert_node_address (t5.drop 4), convert_node_address (t6.drop 4) with
              | some srcnode, some dstnode => some (srcnode, dstnode)
              | _, _ => none
          | _, _ => none
      else none

/-- The edges contributed by the valid `RECV` lines of a file, in file
order. -/
def lineEdges (lines : List (List Char)) : List (String × String) :=
  lines.filterMap lineEdge

/-- Source line 180 splits with a single-space separator; joining
space-free tokens with single spaces is its inverse. -/
def joinSpaces : List (List Char) → List Char
  | [] => []
  | [t] => t
  | t :: ts => t ++ ' ' :: joinSpaces ts

theorem mem_insertNew {a x : String} {l : List String} :
    a ∈ insertNew l x ↔ a ∈ l ∨ a = x := by
  unfold insertNew
  by_cases h : x ∈ l
  · rw [if_pos h]
    constructor
    · exact Or.inl
    · rintro (ha | rfl)
      · exact ha
      · exact h
  · rw [if_neg h]
    simp [List.mem_append]

theorem nodup_insertNew {l : List String} (h : l.Nodup) (x : String) :
    (insertNew l x).Nodup := by
  unfold insertNew
  by_cases hx : x ∈ l
  · rw [if_pos hx]; exact h
  · rw [if_neg hx]
    simp [List.nodup_append, h, hx]

theorem mem_foldl_insertNew {a : String} (l : List String) (acc : List String) :
    a ∈ l.foldl insertNew acc ↔ a ∈ acc ∨ a ∈ l := by
  induction l generalizing acc with
  | nil => simp
  | cons x xs ih => simp [List.foldl_cons, ih, mem_insertNew, or_assoc]

theorem nodup_foldl_insertNew (l : List String) (acc : List String) (h : acc.Nodup) :
    (l.foldl insertNew acc).Nodup := by
  induction l generalizing acc with
  | nil => simpa using h
  | cons x xs ih => exact ih _ (nodup_insertNew h x)

theorem mem_dedupFirst {a : String} {l : List String} : a ∈ dedupFirst l ↔ a ∈ l := by
  simp [dedupFirst, mem_foldl_insertNew]

theorem nodup_dedupFirst (l : List String) : (dedupFirst l).Nodup :=
  nodup_foldl_insertNew l [] List.nodup_nil

theorem dedupFirst_append_singleton (l : List String) (a : String) :
    dedupFirst (l ++ [a]) = insertNew (dedupFirst l) a := by
  simp [dedupFirst, List.foldl_append]

theorem dedupFirst_append_two (l : List String) (a b : String) :
    dedupFirst (l ++ [a, b]) = insertNew (insertNew (dedupFirst l) a) b := by
  simp [dedupFirst, List.foldl_append]

theorem toFinset_dedupFirst (l : List String) : (dedupFirst l).toFinset = l.toFinset := by
  ext a
  simp [List.mem_toFinset, mem_dedupFirst]

theorem length_dedupFirst (l : List String) : (dedupFirst l).length = l.toFinset.card := by
  rw [← toFinset_dedupFirst]
  exact (List.toFinset_card_of_nodup (nodup_dedupFirst l)).symm

theorem flatPairs_append (E : List (String × String)) (e : String × String) :
    flatPairs (E ++ [e]) = flatPairs E ++ [e.1, e.2] := by
  induction E with
  | nil => rfl
  | cons f fs ih => simp [flatPairs, ih]

theorem mem_flatPairs_fst {A B : String} {E : List (String × String)} (h : (A, B) ∈ E) :
    A ∈ flatPairs E := by
  induction E with
  | nil => cases h
  | cons e es ih =>
    rcases List.mem_cons.1 h with he | he
    · rw [← he]; exact List.mem_cons_self _ _
    · exact List.mem_cons_of_mem _ (List.mem_cons_of_mem _ (ih he))

theorem mem_flatPairs_snd {A B : String} {E : List (String × String)} (h : (A, B) ∈ E) :
    B ∈ flatPairs E := by
  induction E with
  | nil => cases h
  | cons e es ih =>
    rcases List.mem_cons.1 h with he | he
    · rw [← he]; exact List.mem_cons_of_mem _ (List.mem_cons_self _ _)
    · exact List.mem_cons_of_mem _ (List.mem_cons_of_mem _ (ih he))

theorem dstsOf_eq_nil_of_not_mem_flatPairs {s : String} {E : List (String × String)}
    (h : s ∉ flatPairs E) : dstsOf s E = [] := by
  induction E with
  | nil => rfl
  | cons e es ih =>
    have h1 : s ≠ e.1 := fun he => h (he ▸ List.mem_cons_self _ _)
    have h3 : s ∉ flatPairs es := fun hm =>
      h (List.mem_cons_of_mem _ (List.mem_cons_of_mem _ hm))
    simp only [dstsOf, List.filter_cons] at *
    rw [if_neg (by simpa using fun he => h1 he.symm)]
    exact ih h3

theorem dstsOf_append (A : String) (E : List (String × String)) (s t : String) :
    dstsOf A (E ++ [(s, t)]) = dstsOf A E ++ (if s = A then [t] else []) := by
  by_cases h : s = A <;>
    simp [dstsOf, List.filter_append, h]

theorem mem_dstsOf {A B : String} {E : List (String × String)} (h : (A, B) ∈ E) :
    B ∈ dstsOf A E := by
  simp only [dstsOf, List.mem_map, List.mem_filter]
  exact ⟨(A, B), ⟨h, by simp⟩, rfl⟩

theorem dstsOf_eq_nil_of_never_src {B : String} {E : List (String × String)}
    (h : ∀ c, (B, c) ∉ E) : dstsOf B E = [] := by
  induction E with
  | nil => rfl
  | cons e es ih =>
    have h1 : e.1 ≠ B := by
      intro he
      exact h e.2 (by rw [← he]; exact List.mem_cons_self _ _)
    simp only [dstsOf, List.filter_cons]
    rw [if_neg (by simpa using h1)]
    exact ih fun c hc => h c (List.mem_cons_of_mem _ hc)

theorem dedupFirst_dsts_append (A s t : String) (E : List (String × String)) :
    dedupFirst (dstsOf A (E ++ [(s, t)])) =
      if s = A then insertNew (dedupFirst (dstsOf A E)) t
      else dedupFirst (dstsOf A E) := by
  rw [dstsOf_append]
  by_cases h : s = A
  · rw [if_pos h, if_pos h, dedupFirst_append_singleton]
  · rw [if_neg h, if_neg h, List.append_nil]

theorem name_updImports (s t : String) (d : JsonDict) :
    (updImports s t d).name = d.name := by
  unfold updImports
  by_cases h1 : d.name = s
  · rw [if_pos h1]
    by_cases h2 : t ∉ d.imports
    · rw [if_pos h2]
    · rw [if_neg h2]
  · rw [if_neg h1]

theorem stepSrc_map_name (ds : List JsonDict) (s t : String) :
    (stepSrc ds s t).map JsonDict.name = insertNew (ds.map JsonDict.name) s := by
  unfold stepSrc
  by_cases hemp : ds.isEmpty
  · rw [if_pos hemp]
    rw [List.isEmpty_iff] at hemp
    subst hemp
    simp [insertNew]
  · rw [if_neg hemp]
    by_cases hs : s ∈ ds.map JsonDict.name
    · rw [if_neg (not_not_intro hs), List.map_map, insertNew, if_pos hs]
      exact List.map_congr_left fun d _ => name_updImports s t d
    · rw [if_pos hs, insertNew, if_neg hs]
      simp

theorem stepDst_map_name (ds : List JsonDict) (t : String) :
    (stepDst ds t).map JsonDict.name = insertNew (ds.map JsonDict.name) t := by
  unfold stepDst
  by_cases ht : t ∈ ds.map JsonDict.name
  · rw [if_neg (not_not_intro ht), insertNew, if_pos ht]
  · rw [if_pos ht, insertNew, if_neg ht]
    simp

theorem step_map_name (ds : List JsonDict) (s t : String) :
    (step ds s t).map JsonDict.name =
      insertNew (insertNew (ds.map JsonDict.name) s) t := by
  rw [step, stepDst_map_name, stepSrc_map_name]

theorem mem_stepDst {d' : JsonDict} {ds1 : List JsonDict} {t : String}
    (h : d' ∈ stepDst ds1 t) :
    d' ∈ ds1 ∨ (d' = ⟨t, 0, []⟩ ∧ t ∉ ds1.map JsonDict.name) := by
  unfold stepDst at h
  by_cases ht : t ∈ ds1.map JsonDict.name
  · rw [if_neg (not_not_intro ht)] at h
    exact Or.inl h
  · rw [if_pos ht] at h
    rcases List.mem_append.1 h with h | h
    · exact Or.inl h
    · simp only [List.mem_singleton] at h
      exact Or.inr ⟨h, ht⟩

theorem mem_stepSrc {d' : JsonDict} {ds : List JsonDict} {s t : String}
    (h : d' ∈ stepSrc ds s t) :
    (s ∉ ds.map JsonDict.name ∧ (d' ∈ ds ∨ d' = ⟨s, 1, [t]⟩)) ∨
    (s ∈ ds.map JsonDict.name ∧ ∃ d ∈ ds, d' = updImports s t d) := by
  unfold stepSrc at h
  by_cases hemp : ds.isEmpty
  · rw [if_pos hemp] at h
    rw [List.isEmpty_iff] at hemp
    subst hemp
    simp only [List.nil_append, List.mem_singleton] at h
    exact Or.inl ⟨by simp, Or.inr h⟩
  · rw [if_neg hemp] at h
    by_cases hs : s ∈ ds.map JsonDict.name
    · rw [if_neg (not_not_intro hs)] at h
      rcases List.mem_map.1 h with ⟨d, hd, hde⟩
      exact Or.inr ⟨hs, d, hd, hde.symm⟩
    · rw [if_pos hs] at h
      rcases List.mem_append.1 h with h | h
      · exact Or.inl ⟨hs, Or.inl h⟩
      · simp only [List.mem_singleton] at h
        exact Or.inl ⟨hs, Or.inr h⟩

theorem step_spec {E : List (String × String)} {ds : List JsonDict} (s t : String)
    (h : GraphSpec E ds) : GraphSpec (E ++ [(s, t)]) (step ds s t) := by
  obtain ⟨h1, h2⟩ := h
  constructor
  · rw [step_map_name, h1, flatPairs_append, dedupFirst_append_two]
  · intro d' hd'
    rcases mem_stepDst hd' with hd' | ⟨rfl, ht⟩
    · rcases mem_stepSrc hd' with ⟨hs, hd | rfl⟩ | ⟨hs, d, hd, rfl⟩
      · -- an untouched dict, with the source node fresh
        obtain ⟨hi, hsz⟩ := h2 d' hd
        have hne : s ≠ d'.name := fun he =>
          hs (he ▸ List.mem_map_of_mem JsonDict.name hd)
        rw [dedupFirst_dsts_append, if_neg hne]
        exact ⟨hi, hsz⟩
      · -- the freshly appended source dict
        have hs' : s ∉ flatPairs E := fun hm => by
          rw [h1] at hs
          exact hs (mem_dedupFirst.2 hm)
        have hd0 : dstsOf s E = [] := dstsOf_eq_nil_of_not_mem_flatPairs hs'
        refine ⟨?_, rfl⟩
        show [t] = dedupFirst (dstsOf s (E ++ [(s, t)]))
        rw [dedupFirst_dsts_append, if_pos rfl, hd0]
        simp [dedupFirst, insertNew]
      · -- a dict passed through the update loop
        obtain ⟨hi, hsz⟩ := h2 d hd
        by_cases hn : d.name = s
        · rw [updImports, if_pos hn]
          by_cases hti : t ∉ d.imports
          · rw [if_pos hti]
            refine ⟨?_, by simp [hsz]⟩
            show d.imports ++ [t] = dedupFirst (dstsOf d.name (E ++ [(s, t)]))
            rw [dedupFirst_dsts_append, if_pos hn.symm, ← hi, insertNew,
              if_neg hti]
          · rw [if_neg hti]
            rw [not_not] at hti
            refine ⟨?_, hsz⟩
            rw [dedupFirst_dsts_append, if_pos hn.symm, ← hi, insertNew,
              if_pos hti]
        · rw [updImports, if_neg hn]
          refine ⟨?_, hsz⟩
          rw [dedupFirst_dsts_append, if_neg fun he => hn he.symm]
          exact hi
    · -- the freshly appended destination dict
      rw [stepSrc_map_name, mem_insertNew] at ht
      push_neg at ht
      obtain ⟨ht1, ht2⟩ := ht
      have ht' : t ∉ flatPairs E := fun hm => by
        rw [h1] at ht1
        exact ht1 (mem_dedupFirst.2 hm)
      have hd0 : dstsOf t E = [] := dstsOf_eq_nil_of_not_mem_flatPairs ht'
      refine ⟨?_, rfl⟩
      show ([] : List String) = dedupFirst (dstsOf t (E ++ [(s, t)]))
      rw [dedupFirst_dsts_append, if_neg fun he => ht2 he.symm, hd0]
      rfl

theorem processEdges_spec (E : List (String × String)) : GraphSpec E (processEdges E) := by
  induction E using List.reverseRecOn with
  | nil =>
    refine ⟨rfl, ?_⟩
    intro d hd
    cases hd
  | append_singleton E e ih =>
    obtain ⟨a, b⟩ := e
    rw [processEdges, List.foldl_append]
    exact step_spec a b ih


theorem validate_recv_exists {tokens : List (List Char)}
    (h : validate_recv_mgen_line tokens = true) :
    ∃ t5 t6, tokens.get? 5 = some t5 ∧ tokens.get? 6 = some t6 := by
  unfold validate_recv_mgen_line at h
  split at h
  · cases h
  · rename_i t5 hg5
    split at h
    · cases h
    · split at h
      · cases h
      · rename_i heq t6 hg6
        exact ⟨t5, t6, hg5, hg6⟩

theorem process_some_cases {ds ds' : List JsonDict} {l : List Char}
    (h : process_mgen_line ds l = some ds') :
    (lineEdge l = none ∧ ds' = ds) ∨
    (∃ s t, lineEdge l = some (s, t) ∧ ds' = step ds s t) := by
  by_cases hb : l = ['\n']
  · left
    rw [process_mgen_line, if_pos hb] at h
    exact ⟨by rw [lineEdge, if_pos hb], (Option.some_injective _ h).symm⟩
  · rw [process_mgen_line, if_neg hb] at h
    rw [lineEdge, if_neg hb]
    cases hg : (splitChar ' ' l).get? 1 with
    | none =>
      simp only [hg] at h
      exact Option.noConfusion h
    | some t1 =>
      simp only [hg] at h ⊢
      by_cases h1 : t1 = ("RECV").data
      · simp only [if_pos h1] at h ⊢
        by_cases hv : validate_recv_mgen_line (splitChar ' ' l) = false
        · simp only [if_pos hv] at h ⊢
          exact Or.inl ⟨by trivial, (Option.some_injective _ h).symm⟩
        · simp only [if_neg hv] at h ⊢
          cases hg5 : (splitChar ' ' l).get? 5 with
          | none =>
            simp only [hg5] at h
            exact Option.noConfusion h
          | some t5 =>
            cases hg6 : (splitChar ' ' l).get? 6 with
            | none =>
              simp only [hg5, hg6] at h
              exact Option.noConfusion h
            | some t6 =>
              simp only [hg5, hg6] at h ⊢
              by_cases hv5 : validate_node_address (t5.drop 4) = false
              · simp only [if_pos hv5] at h ⊢
                exact Or.inl ⟨by trivial, (Option.some_injective _ h).symm⟩
              · simp only [if_neg hv5] at h ⊢
                by_cases hv6 : validate_node_address (t6.drop 4) = false
                · simp only [if_pos hv6] at h ⊢
                  exact Or.inl ⟨by trivial, (Option.some_injective _ h).symm⟩
                · simp only [if_neg hv6] at h ⊢
                  cases hc5 : convert_node_address (t5.drop 4) with
                  | none =>
                    simp only [hc5] at h
                    exact Option.noConfusion h
                  | some srcnode =>
                    cases hc6 : convert_node_address (t6.drop 4) with
                    | none =>
                      simp only [hc5, hc6] at h
                      exact Option.noConfusion h
                    | some dstnode =>
                      simp only [hc5, hc6] at h ⊢
                      refine Or.inr ⟨srcnode, dstnode, by simp, (Option.some_injective _ h).symm⟩
      · simp only [if_neg h1] at h ⊢
        exact Or.inl ⟨by trivial, (Option.some_injective _ h).symm⟩

theorem foldlM_process_eq (lines : List (List Char)) :
    ∀ ds0 ds : List JsonDict,
      lines.foldlM process_mgen_line ds0 = some ds →
      ds = (lineEdges lines).foldl stepP ds0 := by
  induction lines with
  | nil =>
    intro ds0 ds h
    simp only [List.foldlM_nil, Option.pure_def] at h
    rw [lineEdges, List.filterMap_nil, List.foldl_nil]
    exact (Option.some_injective _ h).symm
  | cons l ls ih =>
    intro ds0 ds h
    rw [List.foldlM_cons] at h
    cases hp : process_mgen_line ds0 l with
    | none =>
      rw [hp] at h
      simp at h
    | some ds1 =>
      rw [hp] at h
      simp only [Option.bind_eq_bind, Option.some_bind] at h
      have hrec := ih ds1 ds h
      rcases process_some_cases hp with ⟨he, rfl⟩ | ⟨s, t, he, rfl⟩
      · rw [lineEdges, List.filterMap_cons, he]
        exact hrec
      · rw [lineEdges, List.filterMap_cons, he, List.foldl_cons]
        exact hrec
theorem run_lines_eq {lines : List (List Char)} {ds : List JsonDict}
    (h : run_lines lines = some ds) : ds = processEdges (lineEdges lines) :=
  foldlM_process_eq lines [] ds h

theorem process_skip_nonrecv {ds : List JsonDict} {l : List Char} {t1 : List Char}
    (hb : l ≠ ['\n']) (hg : (splitChar ' ' l).get? 1 = some t1)
    (h1 : t1 ≠ ("RECV").data) :
    process_mgen_line ds l = some ds := by
  rw [process_mgen_line, if_neg hb]
  simp only [hg, if_neg h1]

theorem process_abort_short {ds : List JsonDict} {l : List Char}
    (hb : l ≠ ['\n']) (hg : (splitChar ' ' l).get? 1 = none) :
    process_mgen_line ds l = none := by
  rw [process_mgen_line, if_neg hb]
  simp only [hg]

theorem process_skip_invalid {ds : List JsonDict} {l : List Char}
    (hb : l ≠ ['\n']) (hg : (splitChar ' ' l).get? 1 = some (("RECV").data))
    (hinv : validate_recv_mgen_line (splitChar ' ' l) = false ∨
      (∃ t5, (splitChar ' ' l).get? 5 = some t5 ∧
        validate_node_address (t5.drop 4) = false) ∨
      (∃ t6, (splitChar ' ' l).get? 6 = some t6 ∧
        validate_node_address (t6.drop 4) = false)) :
    process_mgen_line ds l = some ds := by
  rw [process_mgen_line, if_neg hb]
  simp only [hg, eq_self_iff_true, if_true]
  by_cases hv : validate_recv_mgen_line (splitChar ' ' l) = false
  · simp only [if_pos hv]
  · simp only [if_neg hv]
    have hv' : validate_recv_mgen_line (splitChar ' ' l) = true := by
      cases hvv : validate_recv_mgen_line (splitChar ' ' l) with
      | false => exact absurd hvv hv
      | true => rfl
    obtain ⟨t5, t6, hg5, hg6⟩ := validate_recv_exists hv'
    simp only [hg5, hg6]
    rcases hinv with hinv | ⟨u5, hu5, hinv5⟩ | ⟨u6, hu6, hinv6⟩
    · exact absurd hinv hv
    · have he : u5 = t5 := Option.some_injective _ (hu5.symm.trans hg5)
      rw [he] at hinv5
      simp only [if_pos hinv5]
    · have he : u6 = t6 := Option.some_injective _ (hu6.symm.trans hg6)
      rw [he] at hinv6
      by_cases hv5 : validate_node_address (t5.drop 4) = false
      · simp only [if_pos hv5]
      · simp only [if_neg hv5, if_pos hinv6]

theorem exists_four_of_length {α : Type} (l : List α) (h : l.length = 4) :
    ∃ a b c d, l = [a, b, c, d] := by
  cases l with
  | nil => simp at h
  | cons a l1 =>
    cases l1 with
    | nil => simp at h
    | cons b l2 =>
      cases l2 with
      | nil => simp at h
      | cons c l3 =>
        cases l3 with
        | nil => simp at h
        | cons d l4 =>
          cases l4 with
          | nil => exact ⟨a, b, c, d, rfl⟩
          | cons e l5 =>
            simp only [List.length_cons] at h
            omega

theorem splitChar_not_mem {sep : Char} {t : List Char} (h : sep ∉ t) :
    splitChar sep t = [t] := by
  induction t with
  | nil => rfl
  | cons c cs ih =>
    have hc : c ≠ sep := fun he => h (he ▸ List.mem_cons_self c cs)
    have hcs : sep ∉ cs := fun hm => h (List.mem_cons_of_mem c hm)
    rw [splitChar, if_neg hc, ih hcs]

theorem splitChar_append_sep {sep : Char} {t r : List Char} (h : sep ∉ t) :
    splitChar sep (t ++ sep :: r) = t :: splitChar sep r := by
  induction t with
  | nil => rw [List.nil_append, splitChar, if_pos rfl]
  | cons c cs ih =>
    have hc : c ≠ sep := fun he => h (he ▸ List.mem_cons_self c cs)
    have hcs : sep ∉ cs := fun hm => h (List.mem_cons_of_mem c hm)
    rw [List.cons_append, splitChar, if_neg hc, ih hcs]

/-- Claim C1 (code-bug evidence): on an empty input file the run does not
halt.  The empty-input `ValueError` of source line 168 is raised and
immediately caught (logged only), the run completes, the output file is
opened in append mode, and the empty JSON array is written after any
previous content of the output file. -/
theorem claim1_empty_input_writes_output :
    convert_mgen_to_json [] ("previous") = ⟨("previous[]"), true, true⟩ := by
  decide

/-- Claim C2 counterexample: on the six example lines the record of
`mgen.127-0-0-2` has imports `[mgen.127-0-0-3, mgen.127-0-0-1]`, the
order of first addition, not the claimed
`[mgen.127-0-0-1, mgen.127-0-0-3]`. -/
theorem claim2_counterexample :
    (run_lines sixLines).map (fun ds => ds.map JsonDict.imports) =
      some [[("mgen.127-0-0-2"), ("mgen.127-0-0-3"), ("mgen.127-0-0-4")],
        [("mgen.127-0-0-3"), ("mgen.127-0-0-1")], [], []] ∧
    [("mgen.127-0-0-3"), ("mgen.127-0-0-1")] ≠
      [("mgen.127-0-0-1"), ("mgen.127-0-0-3")] := by
  decide

/-- Claim C2 as amended: the six example `RECV` lines produce exactly the
four records `mgen.127-0-0-1` (size 3, imports 2, 3, 4), `mgen.127-0-0-2`
(size 2, imports `[mgen.127-0-0-3, mgen.127-0-0-1]` in first-addition
order), and `mgen.127-0-0-3`, `mgen.127-0-0-4` (size 0, empty), in node
insertion order 1, 2, 3, 4. -/
theorem claim2_amended_end_to_end :
    run_lines sixLines =
      some [⟨("mgen.127-0-0-1"), 3,
          [("mgen.127-0-0-2"), ("mgen.127-0-0-3"), ("mgen.127-0-0-4")]⟩,
        ⟨("mgen.127-0-0-2"), 2, [("mgen.127-0-0-3"), ("mgen.127-0-0-1")]⟩,
        ⟨("mgen.127-0-0-3"), 0, []⟩,
        ⟨("mgen.127-0-0-4"), 0, []⟩] := by
  decide

/-- Claim C3 counterexample: the non-blank line `hi` has fewer than two
space-split tokens, so `mgen_line[1]` raises an uncaught `IndexError`
and the run aborts instead of skipping the line. -/
theorem claim3_counterexample :
    ("hi\n").data ≠ ['\n'] ∧ run_lines [("hi\n").data] = none := by
  decide

/-- Claim C3 as amended: for every non-blank line with at least two
space-split tokens, a second token other than `RECV` means the line is
silently ignored with the state unchanged, and a `RECV` line failing
validation is skipped with the state unchanged; but a non-blank line
with fewer than two space-split tokens raises an uncaught `IndexError`
that aborts the run. -/
theorem claim3_amended_per_line :
    (∀ (ds : List JsonDict) (l t1 : List Char),
      l ≠ ['\n'] → (splitChar ' ' l).get? 1 = some t1 → t1 ≠ ("RECV").data →
      process_mgen_line ds l = some ds) ∧
    (∀ (ds : List JsonDict) (l : List Char),
      l ≠ ['\n'] → (splitChar ' ' l).get? 1 = some (("RECV").data) →
      (validate_recv_mgen_line (splitChar ' ' l) = false ∨
        (∃ t5, (splitChar ' ' l).get? 5 = some t5 ∧
          validate_node_address (t5.drop 4) = false) ∨
        (∃ t6, (splitChar ' ' l).get? 6 = some t6 ∧
          validate_node_address (t6.drop 4) = false)) →
      process_mgen_line ds l = some ds) ∧
    (∀ (ds : List JsonDict) (l : List Char),
      l ≠ ['\n'] → (splitChar ' ' l).get? 1 = none →
      process_mgen_line ds l = none) :=
  ⟨fun _ _ _ hb hg h1 => process_skip_nonrecv hb hg h1,
   fun _ _ hb hg hinv => process_skip_invalid hb hg hinv,
   fun _ _ hb hg => process_abort_short hb hg⟩

/-- Claim C3 witness: a line whose second token is `ACK` is ignored and
leaves the state unchanged. -/
theorem claim3_amended_witness :
    process_mgen_line [] (("x ACK y\n").data) = some [] :=
  claim3_amended_per_line.1 [] (("x ACK y\n").data) (("ACK").data)
    (by decide) (by decide) (by decide)

/-- Claim C4 counterexample: the IPv6 address `::1` passes
`validate_node_address`, but `convert_node_address` raises an uncaught
`IndexError` on it (fewer than four dot-separated parts), so
`convert_node_address` is not total on validated addresses. -/
theorem claim4_counterexample :
    validate_node_address ((":" ++ ":1").data) = true ∧
    convert_node_address ((":" ++ ":1").data) = none := by
  decide

/-- Claim C4 as amended: `convert_node_address` is total on every
validated address whose stripped form is a valid IPv4 dotted quad: it
returns the `mgen.`-prefixed name of the four octets joined by hyphens,
without raising. -/
theorem claim4_amended_total_on_ipv4 (addr : List Char)
    (hv : validate_node_address addr = true)
    (h4 : pyIsValidIPv4 (stripPort addr) = true) :
    ∃ a b c d, splitChar '.' (stripPort addr) = [a, b, c, d] ∧
      convert_node_address addr =
        some (List.asString
          (("mgen.").data ++ a ++ '-' :: b ++ '-' :: c ++ '-' :: d)) := by
  have hlen : (splitChar '.' (stripPort addr)).length = 4 := by
    simp only [pyIsValidIPv4, Bool.and_eq_true, decide_eq_true_eq] at h4
    exact h4.1
  obtain ⟨a, b, c, d, hparts⟩ := exists_four_of_length _ hlen
  refine ⟨a, b, c, d, hparts, ?_⟩
  simp only [convert_node_address, hparts]
  rfl

/-- Claim C4 witness: the address `127.0.0.1/5001` is validated and
converted to `mgen.127-0-0-1`. -/
theorem claim4_amended_witness :
    ∃ a b c d, splitChar '.' (stripPort (("127.0.0.1/5001").data)) = [a, b, c, d] ∧
      convert_node_address (("127.0.0.1/5001").data) =
        some (List.asString
          (("mgen.").data ++ a ++ '-' :: b ++ '-' :: c ++ '-' :: d)) :=
  claim4_amended_total_on_ipv4 (("127.0.0.1/5001").data) (by decide) (by decide)

/-- Claim C5: for every input whose run completes, if some valid `RECV`
line contributes the edge `(A, B)`, then `A`'s record exists, `B` occurs
exactly once in its imports no matter how often `(A, B)` repeats, and
its size is the number of distinct destinations recorded for `A`. -/
theorem claim5_repeated_pairs (lines : List (List Char)) (ds : List JsonDict)
    (A B : String) (d : JsonDict) (hrun : run_lines lines = some ds)
    (hAB : (A, B) ∈ lineEdges lines) (hd : d ∈ ds) (hdA : d.name = A) :
    A ∈ ds.map JsonDict.name ∧
    d.imports.count B = 1 ∧
    d.size = (dstsOf A (lineEdges lines)).toFinset.card := by
  have hds := run_lines_eq hrun
  subst hds
  obtain ⟨h1, h2⟩ := processEdges_spec (lineEdges lines)
  obtain ⟨hi, hsz⟩ := h2 d hd
  refine ⟨?_, ?_, ?_⟩
  · rw [h1]
    exact mem_dedupFirst.2 (mem_flatPairs_fst hAB)
  · rw [hi, hdA]
    exact List.count_eq_one_of_mem (nodup_dedupFirst _)
      (mem_dedupFirst.2 (mem_dstsOf hAB))
  · rw [hsz, hi, hdA, length_dedupFirst]

/-- Claim C5 witness: the same `RECV` line twice yields one import and
size 1 for the source node. -/
theorem claim5_witness :
    ("mgen.127-0-0-1") ∈
      [JsonDict.mk ("mgen.127-0-0-1") 1 [("mgen.127-0-0-2")],
        JsonDict.mk ("mgen.127-0-0-2") 0 []].map JsonDict.name ∧
    (JsonDict.mk ("mgen.127-0-0-1") 1 [("mgen.127-0-0-2")]).imports.count
      ("mgen.127-0-0-2") = 1 ∧
    (JsonDict.mk ("mgen.127-0-0-1") 1 [("mgen.127-0-0-2")]).size =
      (dstsOf ("mgen.127-0-0-1") (lineEdges [recvLine1, recvLine1])).toFinset.card :=
  claim5_repeated_pairs [recvLine1, recvLine1]
    [JsonDict.mk ("mgen.127-0-0-1") 1 [("mgen.127-0-0-2")],
      JsonDict.mk ("mgen.127-0-0-2") 0 []]
    ("mgen.127-0-0-1") ("mgen.127-0-0-2")
    (JsonDict.mk ("mgen.127-0-0-1") 1 [("mgen.127-0-0-2")])
    (by decide) (by decide) (by decide) (by decide)

/-- Claim C6: each accumulation step preserves `size = len(imports)` in
every record, and in the final output of every completed run each
record's size equals the length of its imports. -/
theorem claim6_size_invariant :
    (∀ (ds : List JsonDict) (s t : String),
      (∀ d ∈ ds, d.size = d.imports.length) →
      ∀ d ∈ step ds s t, d.size = d.imports.length) ∧
    (∀ (lines : List (List Char)) (ds : List JsonDict) (d : JsonDict),
      run_lines lines = some ds → d ∈ ds → d.size = d.imports.length) := by
  constructor
  · intro ds s t hinv d hd
    rcases mem_stepDst hd with hd | ⟨rfl, _⟩
    · rcases mem_stepSrc hd with ⟨_, hd | rfl⟩ | ⟨_, d0, hd0, rfl⟩
      · exact hinv d hd
      · rfl
      · have h0 := hinv d0 hd0
        rw [updImports]
        by_cases hn : d0.name = s
        · rw [if_pos hn]
          by_cases hti : t ∉ d0.imports
          · rw [if_pos hti]
            simp [h0]
          · rw [if_neg hti]
            exact h0
        · rw [if_neg hn]
          exact h0
    · rfl
  · intro lines ds d hrun hd
    have hds := run_lines_eq hrun
    subst hds
    exact ((processEdges_spec (lineEdges lines)).2 d hd).2

/-- Claim C6 witness: the invariant evaluated on the record produced by
one `RECV` line. -/
theorem claim6_witness :
    (JsonDict.mk ("mgen.127-0-0-1") 1 [("mgen.127-0-0-2")]).size =
      (JsonDict.mk ("mgen.127-0-0-1") 1 [("mgen.127-0-0-2")]).imports.length :=
  claim6_size_invariant.2 [recvLine1]
    [JsonDict.mk ("mgen.127-0-0-1") 1 [("mgen.127-0-0-2")],
      JsonDict.mk ("mgen.127-0-0-2") 0 []]
    (JsonDict.mk ("mgen.127-0-0-1") 1 [("mgen.127-0-0-2")])
    (by decide) (by decide)

/-- Claim C7: in the final output of every completed run, record names
are unique and an address appearing as a destination of some valid line
has exactly one record, whether or not it also appears as a source; its
record has empty imports in case it never appears as a source. -/
theorem claim7_destination_nodes (lines : List (List Char)) (ds : List JsonDict)
    (B : String) (d : JsonDict) (hrun : run_lines lines = some ds)
    (hBdst : ∃ a, (a, B) ∈ lineEdges lines) (hd : d ∈ ds) (hdB : d.name = B) :
    (ds.map JsonDict.name).Nodup ∧
    (ds.map JsonDict.name).count B = 1 ∧
    ((lineEdges lines).all (fun e => decide (e.1 ≠ B)) = true →
      d.imports = []) := by
  have hds := run_lines_eq hrun
  subst hds
  obtain ⟨h1, h2⟩ := processEdges_spec (lineEdges lines)
  obtain ⟨a, hA⟩ := hBdst
  have hnodup : ((processEdges (lineEdges lines)).map JsonDict.name).Nodup := by
    rw [h1]
    exact nodup_dedupFirst _
  refine ⟨hnodup, ?_, ?_⟩
  · have hB : B ∈ (processEdges (lineEdges lines)).map JsonDict.name := by
      rw [h1]
      exact mem_dedupFirst.2 (mem_flatPairs_snd hA)
    exact List.count_eq_one_of_mem hnodup hB
  · intro hnever
    obtain ⟨hi, _⟩ := h2 d hd
    have hnever' : ∀ c, (B, c) ∉ lineEdges lines := by
      intro c hc
      have := List.all_eq_true.1 hnever (B, c) hc
      simp at this
    rw [hi, hdB, dstsOf_eq_nil_of_never_src hnever']
    rfl

/-- Claim C7 witness: the destination-only node of one `RECV` line has a
unique record with empty imports. -/
theorem claim7_witness :
    ([JsonDict.mk ("mgen.127-0-0-1") 1 [("mgen.127-0-0-2")],
        JsonDict.mk ("mgen.127-0-0-2") 0 []].map JsonDict.name).Nodup ∧
    ([JsonDict.mk ("mgen.127-0-0-1") 1 [("mgen.127-0-0-2")],
        JsonDict.mk ("mgen.127-0-0-2") 0 []].map JsonDict.name).count
      ("mgen.127-0-0-2") = 1 ∧
    ((lineEdges [recvLine1]).all
        (fun e => decide (e.1 ≠ ("mgen.127-0-0-2"))) = true →
      (JsonDict.mk ("mgen.127-0-0-2") 0 []).imports = []) :=
  claim7_destination_nodes [recvLine1]
    [JsonDict.mk ("mgen.127-0-0-1") 1 [("mgen.127-0-0-2")],
      JsonDict.mk ("mgen.127-0-0-2") 0 []]
    ("mgen.127-0-0-2") (JsonDict.mk ("mgen.127-0-0-2") 0 [])
    (by decide) ⟨("mgen.127-0-0-1"), by decide⟩ (by decide) (by decide)

/-- Claim C8 counterexample: the tab-separated version of the first
example `RECV` line does not have `RECV` as its second token under the
source's single-space split, and its run aborts, while the
space-separated version processes normally. -/
theorem claim8_counterexample :
    (splitChar ' ' tabLine).get? 1 ≠ some (("RECV").data) ∧
    run_lines [tabLine] = none ∧
    run_lines [recvLine1] ≠ none := by
  decide

/-- Claim C8 as amended: tokenization is by single space characters
only.  Joining any space-free tokens with exactly one space each
recovers exactly those tokens at their positions, so a `RECV` line with
single-space separators is recognized; other whitespace is not a
separator. -/
theorem claim8_single_space_tokens (ts : List (List Char)) (hne : ts ≠ [])
    (hsp : ∀ t ∈ ts, ' ' ∉ t) :
    splitChar ' ' (joinSpaces ts) = ts := by
  induction ts with
  | nil => exact absurd rfl hne
  | cons t rest ih =>
    cases rest with
    | nil =>
      rw [joinSpaces]
      exact splitChar_not_mem (hsp t (List.mem_cons_self t []))
    | cons t2 ts2 =>
      rw [joinSpaces, splitChar_append_sep (hsp t (List.mem_cons_self t _)),
        ih (List.cons_ne_nil t2 ts2) (fun u hu => hsp u (List.mem_cons_of_mem t hu))]
      exact fun h => List.noConfusion h

/-- Claim C8 witness: two space-free tokens joined by a single space
split back into the same two tokens. -/
theorem claim8_witness :
    splitChar ' ' (joinSpaces [("ab").data, ("cd").data]) =
      [("ab").data, ("cd").data] :=
  claim8_single_space_tokens [("ab").data, ("cd").data] (by decide) (by decide)

/-- Claim C9: a `RECV` line rejected by validation (missing tag or an
invalid address) leaves the accumulated state exactly unchanged, and the
run continues with the next line. -/
theorem claim9_skip_atomic (ds : List JsonDict) (l : List Char)
    (hb : l ≠ ['\n'])
    (hg : (splitChar ' ' l).get? 1 = some (("RECV").data))
    (hinv : validate_recv_mgen_line (splitChar ' ' l) = false ∨
      (∃ t5, (splitChar ' ' l).get? 5 = some t5 ∧
        validate_node_address (t5.drop 4) = false) ∨
      (∃ t6, (splitChar ' ' l).get? 6 = some t6 ∧
        validate_node_address (t6.drop 4) = false)) :
    process_mgen_line ds l = some ds ∧
    ∀ rest, (l :: rest).foldlM process_mgen_line ds =
      rest.foldlM process_mgen_line ds := by
  have h : process_mgen_line ds l = some ds := process_skip_invalid hb hg hinv
  refine ⟨h, fun rest => ?_⟩
  rw [List.foldlM_cons, h]
  simp only [Option.bind_eq_bind, Option.some_bind]

/-- Claim C9 witness: a `RECV` line with source `999.999.999.999` is
skipped and leaves the state unchanged. -/
theorem claim9_witness :
    process_mgen_line [] recvLine999 = some [] :=
  (claim9_skip_atomic [] recvLine999 (by decide) (by decide)
    (Or.inr (Or.inl ⟨(("src>999.999.999.999/5001").data), by decide, by decide⟩))).1

/-- Claim C10: the output file is opened in append mode, so for every
completed run with a non-empty pre-existing output file the resulting
content is the old content followed by the serialized array, not the
array alone. -/
theorem claim10_append_mode (input : List Char) (old : String) (hold : old ≠ "")
    (ds : List JsonDict) (hrun : run_lines (pyReadlines input) = some ds) :
    output_open_mode = OpenMode.append ∧
    (convert_mgen_to_json input old).output = old ++ jsonDumps ds ∧
    (convert_mgen_to_json input old).output ≠ jsonDumps ds := by
  have hc : convert_mgen_to_json input old =
      ⟨old ++ jsonDumps ds, true, input.isEmpty⟩ := by
    rw [convert_mgen_to_json]
    simp only [hrun, applyOpenMode, output_open_mode]
  refine ⟨rfl, by rw [hc], ?_⟩
  rw [hc]
  intro he
  have hdata := congrArg String.data he
  rw [String.data_append] at hdata
  have hlen := congrArg List.length hdata
  rw [List.length_append] at hlen
  have h0 : old.data = [] := List.length_eq_zero.1 (by omega)
  apply hold
  cases old with
  | mk data =>
    cases h0
    rfl

/-- Claim C10 witness: with pre-existing content `x` and empty input the
output file ends up holding `x[]`. -/
theorem claim10_witness :
    (convert_mgen_to_json [] ("x")).output = ("x") ++ jsonDumps [] ∧
    (convert_mgen_to_json [] ("x")).output ≠ jsonDumps [] :=
  ((claim10_append_mode [] ("x") (by decide) [] (by rfl)).2)
